import Mathlib

/-!
Verification of the pixel-camera fit/scale logic of `bevy_pixel`
(`src/texture.rs`).

The source computes in `f32`; we embed `f32` values as exact rationals
together with explicit IEEE-754 single-precision round-to-nearest-even
rounding (`flq`), plus `inf`/`nan` payloads (`F32`).  All integer values
(`u32`) are embedded as `ℕ`; callers pass values below `2^32`.
-/

namespace BevyPixel

/-! Part 1: an exact model of IEEE-754 binary32 rounding. -/

/-- Fuel-driven floor of `log₂ q` for `1 ≤ q` (`0` when fuel runs out). -/
def flog2Aux : ℕ → ℚ → ℕ
  | 0, _ => 0
  | fuel + 1, q => if q < 2 then 0 else flog2Aux fuel (q / 2) + 1

/-- Fuel-driven ceiling of `log₂ r` for `1 < r` (counts halvings until `≤ 1`). -/
def clog2Aux : ℕ → ℚ → ℕ
  | 0, _ => 0
  | fuel + 1, r => if r ≤ 1 then 0 else clog2Aux fuel (r / 2) + 1

/-- Fuel used by the binary exponent computation; ample for every value a
`u32`-based computation can produce. -/
def floatFuel : ℕ := 400

/-- Binary exponent of a positive rational: the `e` with `2^e ≤ q < 2^(e+1)`
(for values in the fuel-covered range). -/
def qexp (q : ℚ) : ℤ :=
  if q < 1 then -(clog2Aux floatFuel q⁻¹ : ℤ) else (flog2Aux floatFuel q : ℤ)

/-- Round a rational to the nearest integer, ties to even. -/
def rndNE (q : ℚ) : ℤ :=
  if q - ⌊q⌋ < 1 / 2 then ⌊q⌋
  else if 1 / 2 < q - ⌊q⌋ then ⌊q⌋ + 1
  else if ⌊q⌋ % 2 = 0 then ⌊q⌋ else ⌊q⌋ + 1

/-- Multiply by a (possibly negative) power of two, computably. -/
def qshift (q : ℚ) (k : ℤ) : ℚ :=
  if 0 ≤ k then q * 2 ^ k.toNat else q / 2 ^ (-k).toNat

/-- Round a positive rational to the nearest `f32`-representable value
(round to nearest, ties to even, 24-bit significand, subnormals at
exponent `-126`; no overflow cutoff — callers inspect the magnitude). -/
def flqPos (q : ℚ) : ℚ :=
  qshift (rndNE (qshift q (23 - max (qexp q) (-126))) : ℚ)
    (max (qexp q) (-126) - 23)

/-- Round any rational to the nearest `f32`-representable value. -/
def flq (q : ℚ) : ℚ :=
  if q = 0 then 0 else if q < 0 then -flqPos (-q) else flqPos q

/-- An `f32` value: NaN, a signed infinity, or a finite (representable)
rational. -/
inductive F32 where
  | nan : F32
  | inf (neg : Bool) : F32
  | val (q : ℚ) : F32
deriving DecidableEq

/-- Package a rounded rational as an `F32`, overflowing to infinity exactly
when rounding (with unbounded exponent) reaches magnitude `2^128`. -/
def mkF32 (q : ℚ) : F32 :=
  if (2 : ℚ) ^ (128 : ℕ) ≤ flq q then .inf false
  else if flq q ≤ -((2 : ℚ) ^ (128 : ℕ)) then .inf true
  else .val (flq q)

/-- Rust `u32 as f32` (round to nearest). -/
def u32toF32 (n : ℕ) : F32 := .val (flq n)

/-- Rust `f32 as u32`: truncate toward zero, saturating; NaN maps to `0`. -/
def f32toU32 : F32 → ℕ
  | .nan => 0
  | .inf s => if s then 0 else 2 ^ 32 - 1
  | .val q => if q < 0 then 0 else min (2 ^ 32 - 1) ⌊q⌋.toNat

/-- Multiplication of `f32` values. -/
def F32.mul : F32 → F32 → F32
  | .nan, _ => .nan
  | _, .nan => .nan
  | .inf s, .inf t => .inf (xor s t)
  | .inf s, .val q => if q = 0 then .nan else .inf (xor s (decide (q < 0)))
  | .val q, .inf s => if q = 0 then .nan else .inf (xor s (decide (q < 0)))
  | .val a, .val b => mkF32 (a * b)

/-- Division of `f32` values. -/
def F32.div : F32 → F32 → F32
  | .nan, _ => .nan
  | _, .nan => .nan
  | .inf _, .inf _ => .nan
  | .inf s, .val q => .inf (xor s (decide (q < 0)))
  | .val _, .inf _ => .val 0
  | .val a, .val b =>
      if b = 0 then (if a = 0 then .nan else .inf (decide (a < 0)))
      else mkF32 (a / b)

/-- Strict greater-than on `f32` (`false` whenever either operand is NaN). -/
def F32.gt : F32 → F32 → Bool
  | .nan, _ => false
  | _, .nan => false
  | .inf s, .inf t => !s && t
  | .inf s, .val _ => !s
  | .val _, .inf t => t
  | .val a, .val b => decide (b < a)

/-- The `f32.floor` operation (exact on representable values). -/
def F32.floor : F32 → F32
  | .nan => .nan
  | .inf s => .inf s
  | .val q => .val (⌊q⌋ : ℚ)

/-! Part 2: the data model (`src/texture.rs`). -/

/-- RGBA color (exact components; only carried through, never computed on). -/
abbrev Color := ℚ × ℚ × ℚ × ℚ

/-- The constant `Color::WHITE`. -/
def whiteColor : Color := (1, 1, 1, 1)

/-- The `TexturePixelCamera` component (texture.rs:14-20). -/
structure TexturePixelCamera where
  size : ℕ × ℕ
  fixed_axis : Option Bool
  clear_color : Color
  init : Bool
deriving DecidableEq

/-- Constructor `TexturePixelCamera::default` (texture.rs:31-40). -/
def TexturePixelCamera.default : TexturePixelCamera :=
  ⟨(256, 224), none, whiteColor, false⟩

/-- Constructor `TexturePixelCamera::new` (texture.rs:43-50). -/
def TexturePixelCamera.new (size : ℕ × ℕ) (axis : Option Bool) (c : Color) :
    TexturePixelCamera := ⟨size, axis, c, false⟩

/-- Constructor `TexturePixelCamera::from_height` (texture.rs:52-59). -/
def TexturePixelCamera.from_height (h : ℕ) : TexturePixelCamera :=
  ⟨(0, h), some false, whiteColor, false⟩

/-- Constructor `TexturePixelCamera::from_width` (texture.rs:60-67). -/
def TexturePixelCamera.from_width (w : ℕ) : TexturePixelCamera :=
  ⟨(w, 0), some true, whiteColor, false⟩

/-- Constructor `TexturePixelCamera::from_size` (texture.rs:68-75). -/
def TexturePixelCamera.from_size (w h : ℕ) : TexturePixelCamera :=
  ⟨(w, h), none, whiteColor, false⟩

/-- Render target of a camera. -/
inductive RenderTargetSpec where
  | window : RenderTargetSpec
  | image (handle : ℕ) : RenderTargetSpec
deriving DecidableEq

/-- A `Camera2d` clear-color configuration. -/
inductive ClearColorCfg where
  | defaultCfg : ClearColorCfg
  | custom (c : Color) : ClearColorCfg
deriving DecidableEq

/-- A 3-component `f32` vector. -/
structure Vec3 where
  x : F32
  y : F32
  z : F32
deriving DecidableEq

/-- A quaternion (rotation part of a `Transform`). -/
structure Quat where
  x : F32
  y : F32
  z : F32
  w : F32
deriving DecidableEq

/-- A bevy `Transform`. -/
structure Transform where
  translation : Vec3
  rotation : Quat
  scale : Vec3
deriving DecidableEq

/-- The default `Transform`: identity. -/
def Transform.identityT : Transform :=
  ⟨⟨.val 0, .val 0, .val 0⟩, ⟨.val 0, .val 0, .val 0, .val 1⟩,
    ⟨.val 1, .val 1, .val 1⟩⟩

/-- A camera `Viewport` (physical position/size in pixels, depth range). -/
structure Viewport where
  physical_position : ℕ × ℕ
  physical_size : ℕ × ℕ
  depth : ℚ × ℚ
deriving DecidableEq

/-- The default viewport depth range `0.0..1.0`. -/
def viewportDepthDefault : ℚ × ℚ := (0, 1)

/-- The fields of a bevy `Camera` this library touches or must preserve. -/
structure Camera where
  viewport : Option Viewport
  order : ℤ
  target : RenderTargetSpec
  is_active : Bool
deriving DecidableEq

/-- Physical pixel dimensions of a window (`PrimaryWindow`). -/
structure Window where
  physical_width : ℕ
  physical_height : ℕ
deriving DecidableEq

/-! Part 3: the fit computation (`scale_render_image`, texture.rs:174-239). -/

/-- The value `aspect_ratio = screen_width as f32 / screen_height as f32`
(texture.rs:185). -/
def aspect (W H : ℕ) : F32 := F32.div (u32toF32 W) (u32toF32 H)

/-- The floating-point part of the branch test:
`window.physical_height() as f32 * aspect_ratio > window.physical_width() as f32`
(texture.rs:187-188). -/
def aspectGtTest (W H Ww Wh : ℕ) : Bool :=
  F32.gt (F32.mul (u32toF32 Wh) (aspect W H)) (u32toF32 Ww)

/-- The full branch test (texture.rs:186-189): the window counts as "tall"
when `physical_height > physical_width` or the aspect test fires. -/
def tallTest (W H Ww Wh : ℕ) : Bool :=
  decide (Wh > Ww) || aspectGtTest W H Ww Wh

/-- The local `window_size` (texture.rs:186-199). -/
def windowSizeCalc (W H Ww Wh : ℕ) : ℕ × ℕ :=
  if tallTest W H Ww Wh then
    (Ww, f32toU32 (F32.floor (F32.div (u32toF32 Ww) (aspect W H))))
  else
    (f32toU32 (F32.floor (F32.mul (u32toF32 Wh) (aspect W H))), Wh)

/-- The local `window_position` (texture.rs:203-223); `checked_sub` on `u32` halves. -/
def windowPosCalc (Ww Wh : ℕ) (tall : Bool) (ws : ℕ × ℕ) : ℕ × ℕ :=
  if tall then
    if ws.2 / 2 ≤ Wh / 2 then (0, Wh / 2 - ws.2 / 2) else (0, 0)
  else
    if ws.1 / 2 ≤ Ww / 2 then (Ww / 2 - ws.1 / 2, 0) else (0, 0)

/-- The outputs `scale_render_image` writes: the viewport rectangle and the
per-axis transform scale (texture.rs:201-235). -/
structure FitResult where
  windowSize : ℕ × ℕ
  windowPos : ℕ × ℕ
  scaleX : F32
  scaleY : F32
  scaleZ : F32
deriving DecidableEq

/-- The pure fit computation of `scale_render_image` (texture.rs:184-235),
as a function of the virtual canvas `(W, H)` and the window physical
pixel size `(Ww, Wh)`. -/
def scaleFit (W H Ww Wh : ℕ) : FitResult :=
  let ws := windowSizeCalc W H Ww Wh
  { windowSize := ws
    windowPos := windowPosCalc Ww Wh (tallTest W H Ww Wh) ws
    scaleX := F32.div (u32toF32 ws.1) (u32toF32 W)
    scaleY := F32.div (u32toF32 ws.2) (u32toF32 H)
    scaleZ := .val 1 }

/-- Model of `Query::get_single`: succeeds exactly when the list has one element. -/
def getSingle : List α → Option α
  | [a] => some a
  | _ => none

/-- The ECS state read and written by `scale_render_image`: transforms of
`RenderImage` entities, cameras tagged `FinalCameraTag`, pixel cameras
tagged `CameraTag`, and `PrimaryWindow` windows. -/
structure ScaleState where
  renderTransforms : List Transform
  finalCameras : List Camera
  pixelCams : List TexturePixelCamera
  windows : List Window
deriving DecidableEq

/-- The system `scale_render_image` (texture.rs:174-239): with exactly one
render-image transform, window, final camera and pixel camera present, it
sets the transform scale and the final camera viewport from `scaleFit`;
otherwise it changes nothing. -/
def scale_render_image (s : ScaleState) : ScaleState :=
  match getSingle s.renderTransforms with
  | none => s
  | some t =>
    match getSingle s.windows with
    | none => s
    | some w =>
      match getSingle s.finalCameras with
      | none => s
      | some cam =>
        match getSingle s.pixelCams with
        | none => s
        | some pc =>
          let r := scaleFit pc.size.1 pc.size.2 w.physical_width w.physical_height
          { s with
            renderTransforms :=
              [{ t with scale := ⟨r.scaleX, r.scaleY, r.scaleZ⟩ }]
            finalCameras :=
              [{ cam with viewport := some ⟨r.windowPos, r.windowSize,
                  viewportDepthDefault⟩ }] }

/-- The fit computation applied to a pixel camera size and a window
physical size, as `scale_render_image` invokes it. -/
def fitOf (p : TexturePixelCamera) (w : Window) : FitResult :=
  scaleFit p.size.1 p.size.2 w.physical_width w.physical_height

/-! Part 4: the one-time setup (`setup_camera`, texture.rs:78-172). -/

/-- The off-screen image allocated in setup (texture.rs:95-113): sized to the
virtual canvas, nearest-neighbor sampled. -/
structure ImageSpec where
  width : ℕ
  height : ℕ
  samplerNearest : Bool
deriving DecidableEq

/-- The quad mesh allocated in setup (texture.rs:127-130): its size is the
canvas size cast to `f32`. -/
structure MeshSpec where
  quadWidth : F32
  quadHeight : F32
deriving DecidableEq

/-- A `ColorMaterial` holding the render texture (texture.rs:136-139). -/
structure MaterialSpec where
  texture : Option ℕ
deriving DecidableEq

/-- The spawned `RenderImage` quad entity (texture.rs:133-145). -/
structure QuadEntity where
  mesh : ℕ
  material : ℕ
  transform : Transform
  layer : ℕ
deriving DecidableEq

/-- The spawned final presentation camera entity (texture.rs:147-167). -/
structure FinalCamEntity where
  cam : Camera
  layer : ℕ
deriving DecidableEq

/-- An entity matched by the query of `setup_camera`: its `TexturePixelCamera`,
`Camera` and `Camera2d` components plus what `commands` inserts on it. -/
structure CamEntity where
  pixel : TexturePixelCamera
  cam : Camera
  cam2dClearColor : ClearColorCfg
  hasCameraTag : Bool
  showUi : Option Bool
deriving DecidableEq

/-- The engine resources `setup_camera` appends to: image, mesh and material
assets, plus the spawned quad and final-camera entities. -/
structure SetupRes where
  images : List ImageSpec
  meshes : List MeshSpec
  materials : List MaterialSpec
  quads : List QuadEntity
  finalCams : List FinalCamEntity
deriving DecidableEq

/-- The layer `RenderLayers::TOTAL_LAYERS - 1` (texture.rs:125). -/
def renderLayerIdx : ℕ := 31

/-- One iteration of the `setup_camera` loop body (texture.rs:85-171): a
no-op when `init` is already set, otherwise sets the flag, allocates the
render image, retargets the scene camera, and spawns the quad and the final
camera. -/
def setupOne (c : CamEntity) (r : SetupRes) : CamEntity × SetupRes :=
  if c.pixel.init then (c, r)
  else
    let sizeX := c.pixel.size.1
    let sizeY := c.pixel.size.2
    let imgHandle := r.images.length
    let c2 : CamEntity :=
      { c with
        pixel := { c.pixel with init := true }
        cam := { c.cam with target := .image imgHandle }
        cam2dClearColor := .custom c.pixel.clear_color
        hasCameraTag := true
        showUi := some false }
    let r2 : SetupRes :=
      { images := r.images ++ [⟨sizeX, sizeY, true⟩]
        meshes := r.meshes ++ [⟨u32toF32 sizeX, u32toF32 sizeY⟩]
        materials := r.materials ++ [⟨some imgHandle⟩]
        quads := r.quads ++
          [⟨r.meshes.length, r.materials.length, Transform.identityT,
            renderLayerIdx⟩]
        finalCams := r.finalCams ++
          [⟨{ viewport := some ⟨(0, 0), (sizeX, sizeY), viewportDepthDefault⟩,
              order := 1, target := .window, is_active := true },
            renderLayerIdx⟩] }
    (c2, r2)

/-- The `setup_camera` loop over all queried camera entities. -/
def setupLoop : List CamEntity → SetupRes → List CamEntity × SetupRes
  | [], r => ([], r)
  | c :: cs, r =>
    let p := setupOne c r
    let q := setupLoop cs p.2
    (p.1 :: q.1, q.2)

/-- The world state touched by `setup_camera`. -/
structure SetupWorld where
  cams : List CamEntity
  res : SetupRes
deriving DecidableEq

/-- The system `setup_camera` (texture.rs:78-172). -/
def setup_camera (w : SetupWorld) : SetupWorld :=
  let p := setupLoop w.cams w.res
  ⟨p.1, p.2⟩

/-! Part 5: facts about the rounding model. -/

theorem qshift_eq (q : ℚ) (k : ℤ) : qshift q k = q * 2 ^ k := by
  unfold qshift
  split_ifs with h
  · rw [← zpow_natCast (2 : ℚ) k.toNat, Int.toNat_of_nonneg h]
  · rw [← zpow_natCast (2 : ℚ) (-k).toNat, Int.toNat_of_nonneg (by omega),
      div_eq_mul_inv, ← zpow_neg, neg_neg]

theorem rndNE_intCast (k : ℤ) : rndNE (k : ℚ) = k := by
  unfold rndNE
  rw [Int.floor_intCast, sub_self]
  norm_num

theorem rndNE_ge_floor (q : ℚ) : ⌊q⌋ ≤ rndNE q := by
  unfold rndNE
  split_ifs <;> omega

theorem rndNE_le_floor_add_one (q : ℚ) : rndNE q ≤ ⌊q⌋ + 1 := by
  unfold rndNE
  split_ifs <;> omega

theorem rndNE_mono {x y : ℚ} (h : x ≤ y) : rndNE x ≤ rndNE y := by
  have hf : ⌊x⌋ ≤ ⌊y⌋ := Int.floor_le_floor h
  rcases eq_or_lt_of_le hf with heq | hlt
  · have hc : (⌊x⌋ : ℚ) = (⌊y⌋ : ℚ) := by exact_mod_cast heq
    have hr : x - (⌊x⌋ : ℚ) ≤ y - (⌊y⌋ : ℚ) := by rw [← hc]; linarith
    unfold rndNE
    rw [← heq] at *
    split_ifs <;> first | omega | linarith
  · have h1 := rndNE_le_floor_add_one x
    have h2 := rndNE_ge_floor y
    omega

theorem flog2Aux_correct :
    ∀ (fuel : ℕ) (q : ℚ), 1 ≤ q → q < 2 ^ fuel →
      2 ^ flog2Aux fuel q ≤ q ∧ q < 2 ^ (flog2Aux fuel q + 1) := by
  intro fuel
  induction fuel with
  | zero =>
    intro q h1 h2
    rw [pow_zero] at h2
    linarith
  | succ n ih =>
    intro q h1 h2
    rw [flog2Aux]
    split_ifs with hq
    · rw [pow_zero, pow_one]
      exact ⟨h1, hq⟩
    · push_neg at hq
      have h1' : (1 : ℚ) ≤ q / 2 := by linarith
      have h2' : q / 2 < 2 ^ n := by rw [pow_succ] at h2; linarith
      obtain ⟨ha, hb⟩ := ih (q / 2) h1' h2'
      rw [pow_succ, pow_succ]
      constructor
      · linarith
      · linarith

theorem clog2Aux_correct :
    ∀ (fuel : ℕ) (r : ℚ), 1 < r → r ≤ 2 ^ fuel →
      r ≤ 2 ^ clog2Aux fuel r ∧ 2 ^ clog2Aux fuel r < 2 * r := by
  intro fuel
  induction fuel with
  | zero =>
    intro r h1 h2
    rw [pow_zero] at h2
    linarith
  | succ n ih =>
    intro r h1 h2
    rw [clog2Aux]
    split_ifs with hr
    · linarith
    · push_neg at hr
      by_cases hr2 : r ≤ 2
      · have hz : clog2Aux n (r / 2) = 0 := by
          cases n with
          | zero => rfl
          | succ m => rw [clog2Aux, if_pos (by linarith)]
        rw [hz, pow_one]
        exact ⟨hr2, by linarith⟩
      · push_neg at hr2
        have h1' : 1 < r / 2 := by linarith
        have h2' : r / 2 ≤ 2 ^ n := by rw [pow_succ] at h2; linarith
        obtain ⟨ha, hb⟩ := ih (r / 2) h1' h2'
        rw [pow_succ]
        constructor
        · linarith
        · linarith

theorem qexp_correct {q : ℚ} (h0 : 0 < q)
    (hlo : (2 : ℚ) ^ (-300 : ℤ) ≤ q) (hhi : q ≤ (2 : ℚ) ^ (300 : ℤ)) :
    (2 : ℚ) ^ qexp q ≤ q ∧ q < (2 : ℚ) ^ (qexp q + 1) := by
  unfold qexp floatFuel
  split_ifs with hq
  · have hr1 : 1 < q⁻¹ := (one_lt_inv₀ h0).2 hq
    have hr2 : q⁻¹ ≤ 2 ^ (400 : ℕ) := by
      have h1 : q⁻¹ ≤ (2 : ℚ) ^ (300 : ℤ) := by
        rw [inv_le_comm₀ h0 (by positivity)]
        rw [← zpow_neg]
        exact hlo
      have h2 : (2 : ℚ) ^ (300 : ℤ) ≤ 2 ^ (400 : ℕ) := by
        rw [show ((300 : ℤ)) = ((300 : ℕ) : ℤ) by norm_num, zpow_natCast]
        exact le_of_lt (pow_lt_pow_right₀ one_lt_two (by norm_num))
      linarith
    obtain ⟨ha, hb⟩ := clog2Aux_correct 400 q⁻¹ hr1 hr2
    have h2k : (0 : ℚ) < 2 ^ clog2Aux 400 q⁻¹ := by positivity
    constructor
    · rw [zpow_neg, zpow_natCast]
      exact (inv_le_comm₀ h2k h0).mpr ha
    · have hq2 : q * 2 ^ clog2Aux 400 q⁻¹ < 2 := by
        have := mul_lt_mul_of_pos_left hb h0
        rw [mul_comm (2 : ℚ) q⁻¹, ← mul_assoc, mul_inv_cancel₀ h0.ne',
          one_mul] at this
        linarith
      rw [show -(clog2Aux 400 q⁻¹ : ℤ) + 1 = 1 - (clog2Aux 400 q⁻¹ : ℤ) by
        ring]
      rw [zpow_sub₀ (by norm_num : (2 : ℚ) ≠ 0), zpow_one, zpow_natCast]
      rw [lt_div_iff₀ h2k]
      exact hq2
  · push_neg at hq
    have h2 : q < 2 ^ (400 : ℕ) := by
      have : (2 : ℚ) ^ (300 : ℤ) < 2 ^ (400 : ℕ) := by
        rw [show ((300 : ℤ)) = ((300 : ℕ) : ℤ) by norm_num, zpow_natCast]
        exact pow_lt_pow_right₀ one_lt_two (by norm_num)
      linarith
    obtain ⟨ha, hb⟩ := flog2Aux_correct 400 q hq h2
    constructor
    · rw [zpow_natCast]
      exact ha
    · rw [show (flog2Aux 400 q : ℤ) + 1 = ((flog2Aux 400 q + 1 : ℕ) : ℤ) by
        push_cast; ring, zpow_natCast]
      exact hb

theorem flqPos_nonneg {q : ℚ} (h : 0 ≤ q) : 0 ≤ flqPos q := by
  unfold flqPos
  rw [qshift_eq, qshift_eq]
  have h1 : (0 : ℤ) ≤ ⌊q * 2 ^ (23 - max (qexp q) (-126))⌋ :=
    Int.floor_nonneg.2 (mul_nonneg h (le_of_lt (zpow_pos two_pos _)))
  have h2 := rndNE_ge_floor (q * 2 ^ (23 - max (qexp q) (-126)))
  have h3 : (0 : ℚ) ≤ (rndNE (q * 2 ^ (23 - max (qexp q) (-126))) : ℚ) := by
    exact_mod_cast le_trans h1 h2
  exact mul_nonneg h3 (le_of_lt (zpow_pos two_pos _))

theorem flqPos_mono {x y : ℚ} (hx0 : 0 < x)
    (hxlo : (2 : ℚ) ^ (-64 : ℤ) ≤ x) (hyhi : y ≤ (2 : ℚ) ^ (64 : ℤ))
    (hxy : x ≤ y) : flqPos x ≤ flqPos y := by
  have hy0 : 0 < y := lt_of_lt_of_le hx0 hxy
  have hx300lo : (2 : ℚ) ^ (-300 : ℤ) ≤ x :=
    le_trans (zpow_le_zpow_right₀ one_le_two (by norm_num)) hxlo
  have hy300hi : y ≤ (2 : ℚ) ^ (300 : ℤ) :=
    le_trans hyhi (zpow_le_zpow_right₀ one_le_two (by norm_num))
  obtain ⟨hxl, hxr⟩ := qexp_correct hx0 hx300lo (le_trans hxy hy300hi)
  obtain ⟨hyl, hyr⟩ := qexp_correct hy0 (le_trans hx300lo hxy) hy300hi
  have hex : -64 ≤ qexp x := by
    by_contra hc
    push_neg at hc
    have : (2 : ℚ) ^ (qexp x + 1) ≤ 2 ^ (-64 : ℤ) :=
      zpow_le_zpow_right₀ one_le_two (by omega)
    linarith
  have hey : qexp x ≤ qexp y := by
    by_contra hc
    push_neg at hc
    have : (2 : ℚ) ^ (qexp y + 1) ≤ 2 ^ qexp x :=
      zpow_le_zpow_right₀ one_le_two (by omega)
    linarith
  have hmx : max (qexp x) (-126) = qexp x := max_eq_left (by omega)
  have hmy : max (qexp y) (-126) = qexp y := max_eq_left (by omega)
  unfold flqPos
  rw [hmx, hmy, qshift_eq, qshift_eq, qshift_eq, qshift_eq]
  rcases eq_or_lt_of_le hey with heq | hlt
  · rw [← heq]
    have hm : rndNE (x * 2 ^ (23 - qexp x)) ≤ rndNE (y * 2 ^ (23 - qexp x)) :=
      rndNE_mono
        (mul_le_mul_of_nonneg_right hxy (le_of_lt (zpow_pos two_pos _)))
    have hmq : (rndNE (x * 2 ^ (23 - qexp x)) : ℚ) ≤
        (rndNE (y * 2 ^ (23 - qexp x)) : ℚ) := by exact_mod_cast hm
    exact mul_le_mul_of_nonneg_right hmq (le_of_lt (zpow_pos two_pos _))
  · have hstep1 : (rndNE (x * 2 ^ (23 - qexp x)) : ℚ) * 2 ^ (qexp x - 23) ≤
        2 ^ (qexp x + 1) := by
      have hlt24 : x * 2 ^ (23 - qexp x) < 2 ^ (24 : ℤ) := by
        calc x * 2 ^ (23 - qexp x)
            < 2 ^ (qexp x + 1) * 2 ^ (23 - qexp x) :=
              mul_lt_mul_of_pos_right hxr (zpow_pos two_pos _)
          _ = 2 ^ (24 : ℤ) := by
              rw [← zpow_add₀ (by norm_num : (2 : ℚ) ≠ 0)]
              congr 1
              ring
      have hfl : ⌊x * 2 ^ (23 - qexp x)⌋ < 2 ^ 24 := by
        rw [Int.floor_lt]
        calc x * 2 ^ (23 - qexp x) < 2 ^ (24 : ℤ) := hlt24
          _ = ((2 ^ 24 : ℤ) : ℚ) := by norm_num
      have hm : rndNE (x * 2 ^ (23 - qexp x)) ≤ 2 ^ 24 :=
        le_trans (rndNE_le_floor_add_one _) (by omega)
      calc (rndNE (x * 2 ^ (23 - qexp x)) : ℚ) * 2 ^ (qexp x - 23)
          ≤ (2 : ℚ) ^ (24 : ℤ) * 2 ^ (qexp x - 23) := by
            apply mul_le_mul_of_nonneg_right _
              (le_of_lt (zpow_pos two_pos _))
            calc (rndNE (x * 2 ^ (23 - qexp x)) : ℚ) ≤ ((2 ^ 24 : ℤ) : ℚ) := by
                  exact_mod_cast hm
              _ = 2 ^ (24 : ℤ) := by norm_num
        _ = 2 ^ (qexp x + 1) := by
            rw [← zpow_add₀ (by norm_num : (2 : ℚ) ≠ 0)]
            congr 1
            ring
    have hstep2 : (2 : ℚ) ^ (qexp x + 1) ≤ 2 ^ qexp y :=
      zpow_le_zpow_right₀ one_le_two (by omega)
    have hstep3 : (2 : ℚ) ^ qexp y ≤
        (rndNE (y * 2 ^ (23 - qexp y)) : ℚ) * 2 ^ (qexp y - 23) := by
      have hge : (2 : ℚ) ^ (23 : ℤ) ≤ y * 2 ^ (23 - qexp y) := by
        calc (2 : ℚ) ^ (23 : ℤ) = 2 ^ qexp y * 2 ^ (23 - qexp y) := by
              rw [← zpow_add₀ (by norm_num : (2 : ℚ) ≠ 0)]
              congr 1
              ring
          _ ≤ y * 2 ^ (23 - qexp y) :=
              mul_le_mul_of_nonneg_right hyl (le_of_lt (zpow_pos two_pos _))
      have hfl : (2 : ℤ) ^ 23 ≤ ⌊y * 2 ^ (23 - qexp y)⌋ := by
        rw [Int.le_floor]
        calc (((2 : ℤ) ^ 23 : ℤ) : ℚ) = 2 ^ (23 : ℤ) := by norm_num
          _ ≤ y * 2 ^ (23 - qexp y) := hge
      have hm : (2 : ℤ) ^ 23 ≤ rndNE (y * 2 ^ (23 - qexp y)) :=
        le_trans hfl (rndNE_ge_floor _)
      calc (2 : ℚ) ^ qexp y = 2 ^ (23 : ℤ) * 2 ^ (qexp y - 23) := by
            rw [← zpow_add₀ (by norm_num : (2 : ℚ) ≠ 0)]
            congr 1
            ring
        _ ≤ (rndNE (y * 2 ^ (23 - qexp y)) : ℚ) * 2 ^ (qexp y - 23) := by
            apply mul_le_mul_of_nonneg_right _
              (le_of_lt (zpow_pos two_pos _))
            calc (2 : ℚ) ^ (23 : ℤ) = (((2 : ℤ) ^ 23 : ℤ) : ℚ) := by norm_num
              _ ≤ (rndNE (y * 2 ^ (23 - qexp y)) : ℚ) := by exact_mod_cast hm
    linarith

theorem flqPos_eq_self {q : ℚ} {m : ℤ}
    (hm : q * 2 ^ ((23 : ℤ) - max (qexp q) (-126)) = (m : ℚ)) :
    flqPos q = q := by
  unfold flqPos
  rw [qshift_eq, qshift_eq, hm, rndNE_intCast, ← hm, mul_assoc,
    ← zpow_add₀ (by norm_num : (2 : ℚ) ≠ 0)]
  rw [show (23 : ℤ) - max (qexp q) (-126) + (max (qexp q) (-126) - 23) = 0 by
    ring, zpow_zero, mul_one]

theorem flq_of_pos {q : ℚ} (h : 0 < q) : flq q = flqPos q := by
  unfold flq
  rw [if_neg h.ne', if_neg (not_lt.2 h.le)]

theorem flqPos_natCast {n : ℕ} (h1 : 1 ≤ n) (h2 : n ≤ 2 ^ 24) :
    flqPos (n : ℚ) = n := by
  have h0 : (0 : ℚ) < n := by exact_mod_cast h1
  have h1q : (1 : ℚ) ≤ n := by exact_mod_cast h1
  have h2q : (n : ℚ) ≤ 2 ^ (24 : ℤ) := by
    calc (n : ℚ) ≤ ((2 ^ 24 : ℕ) : ℚ) := by exact_mod_cast h2
      _ = 2 ^ (24 : ℤ) := by norm_num
  have hlo : (2 : ℚ) ^ (-300 : ℤ) ≤ n := by
    have : (2 : ℚ) ^ (-300 : ℤ) ≤ 2 ^ (0 : ℤ) :=
      zpow_le_zpow_right₀ one_le_two (by norm_num)
    rw [zpow_zero] at this
    linarith
  have hhi : (n : ℚ) ≤ 2 ^ (300 : ℤ) := by
    have : (2 : ℚ) ^ (24 : ℤ) ≤ 2 ^ (300 : ℤ) :=
      zpow_le_zpow_right₀ one_le_two (by norm_num)
    linarith
  obtain ⟨hl, hr⟩ := qexp_correct h0 hlo hhi
  have he0 : 0 ≤ qexp (n : ℚ) := by
    by_contra hc
    push_neg at hc
    have : (2 : ℚ) ^ (qexp (n : ℚ) + 1) ≤ 2 ^ (0 : ℤ) :=
      zpow_le_zpow_right₀ one_le_two (by omega)
    rw [zpow_zero] at this
    linarith
  have he24 : qexp (n : ℚ) ≤ 24 := by
    by_contra hc
    push_neg at hc
    have h25 : (2 : ℚ) ^ (25 : ℤ) ≤ 2 ^ qexp (n : ℚ) :=
      zpow_le_zpow_right₀ one_le_two (by omega)
    have h2425 : (2 : ℚ) ^ (24 : ℤ) < 2 ^ (25 : ℤ) :=
      zpow_lt_zpow_right₀ one_lt_two (by norm_num)
    linarith
  have hmax : max (qexp (n : ℚ)) (-126) = qexp (n : ℚ) :=
    max_eq_left (by omega)
  rcases eq_or_lt_of_le he24 with heq | hlt
  · have hn : (n : ℚ) = 2 ^ (24 : ℤ) := by
      rw [← heq]
      exact le_antisymm (by rw [heq]; exact h2q) hl
    apply flqPos_eq_self (m := 2 ^ 23)
    rw [hmax, heq, hn, ← zpow_add₀ (by norm_num : (2 : ℚ) ≠ 0)]
    norm_num
  · apply flqPos_eq_self (m := (n : ℤ) * 2 ^ ((23 : ℤ) - qexp (n : ℚ)).toNat)
    rw [hmax]
    push_cast
    rw [← zpow_natCast (2 : ℚ) ((23 : ℤ) - qexp (n : ℚ)).toNat,
      Int.toNat_of_nonneg (by omega)]

theorem flq_natCast {n : ℕ} (h2 : n ≤ 2 ^ 24) : flq (n : ℚ) = n := by
  rcases Nat.eq_zero_or_pos n with h0 | h0
  · subst h0
    norm_num [flq]
  · rw [flq_of_pos (by exact_mod_cast h0), flqPos_natCast h0 h2]

theorem flqPos_zpow {z : ℤ} (h1 : -126 ≤ z) (h2 : z ≤ 300) :
    flqPos ((2 : ℚ) ^ z) = 2 ^ z := by
  have h0 : (0 : ℚ) < 2 ^ z := zpow_pos two_pos z
  have hlo : (2 : ℚ) ^ (-300 : ℤ) ≤ 2 ^ z :=
    zpow_le_zpow_right₀ one_le_two (by omega)
  have hhi : (2 : ℚ) ^ z ≤ 2 ^ (300 : ℤ) := zpow_le_zpow_right₀ one_le_two h2
  obtain ⟨hl, hr⟩ := qexp_correct h0 hlo hhi
  have hez : qexp ((2 : ℚ) ^ z) = z := by
    have hle : qexp ((2 : ℚ) ^ z) ≤ z :=
      (zpow_le_zpow_iff_right₀ (one_lt_two : (1 : ℚ) < 2)).1 hl
    have hge : z < qexp ((2 : ℚ) ^ z) + 1 :=
      (zpow_lt_zpow_iff_right₀ (one_lt_two : (1 : ℚ) < 2)).1 hr
    omega
  have hmax : max (qexp ((2 : ℚ) ^ z)) (-126) = z := by
    rw [hez]
    exact max_eq_left (by omega)
  apply flqPos_eq_self (m := 2 ^ 23)
  rw [hmax, ← zpow_add₀ (by norm_num : (2 : ℚ) ≠ 0),
    show z + ((23 : ℤ) - z) = 23 by ring]
  norm_num

/-! Part 6: evaluation lemmas for the `F32` operations. -/

theorem mkF32_pos_val {q : ℚ} (h0 : 0 < q) (hlo : (2 : ℚ) ^ (-64 : ℤ) ≤ q)
    (hhi : q ≤ (2 : ℚ) ^ (64 : ℤ)) : mkF32 q = F32.val (flqPos q) := by
  have hub : flqPos q ≤ (2 : ℚ) ^ (64 : ℤ) := by
    have h1 := flqPos_mono h0 hlo le_rfl hhi
    rwa [flqPos_zpow (by norm_num) (by norm_num)] at h1
  have hnn : 0 ≤ flqPos q := flqPos_nonneg h0.le
  have hlt : flqPos q < (2 : ℚ) ^ (128 : ℕ) := by
    have h1 : (2 : ℚ) ^ (64 : ℤ) < 2 ^ (128 : ℤ) :=
      zpow_lt_zpow_right₀ one_lt_two (by norm_num)
    have h2 : (2 : ℚ) ^ (128 : ℤ) = 2 ^ (128 : ℕ) := by
      rw [show ((128 : ℤ)) = ((128 : ℕ) : ℤ) by norm_num, zpow_natCast]
    linarith
  have hpos128 : (0 : ℚ) < 2 ^ (128 : ℕ) := by positivity
  unfold mkF32
  rw [flq_of_pos h0, if_neg (by linarith), if_neg (by intro hc; linarith)]

theorem u32toF32_natCast {n : ℕ} (h : n ≤ 2 ^ 24) :
    u32toF32 n = F32.val (n : ℚ) := by
  unfold u32toF32
  rw [flq_natCast h]

theorem F32val_div_pos {a b : ℚ} (hb : 0 < b) (h0 : 0 < a / b)
    (hlo : (2 : ℚ) ^ (-64 : ℤ) ≤ a / b) (hhi : a / b ≤ (2 : ℚ) ^ (64 : ℤ)) :
    F32.div (.val a) (.val b) = .val (flqPos (a / b)) := by
  simp only [F32.div]
  rw [if_neg hb.ne', mkF32_pos_val h0 hlo hhi]

theorem F32val_mul_pos {a b : ℚ} (h0 : 0 < a * b)
    (hlo : (2 : ℚ) ^ (-64 : ℤ) ≤ a * b) (hhi : a * b ≤ (2 : ℚ) ^ (64 : ℤ)) :
    F32.mul (.val a) (.val b) = .val (flqPos (a * b)) := by
  simp only [F32.mul]
  exact mkF32_pos_val h0 hlo hhi

theorem F32val_gt (a b : ℚ) : F32.gt (.val a) (.val b) = decide (b < a) :=
  rfl

theorem F32val_floor (q : ℚ) : F32.floor (.val q) = .val (⌊q⌋ : ℚ) :=
  rfl

theorem f32toU32_val_le {q : ℚ} {n : ℕ} (h0 : 0 ≤ q) (h : q ≤ (n : ℚ)) :
    f32toU32 (.val q) ≤ n := by
  simp only [f32toU32]
  rw [if_neg (not_lt.2 h0)]
  have h1 : ⌊q⌋ ≤ (n : ℤ) := by
    have h2 := Int.floor_le_floor h
    rwa [Int.floor_natCast] at h2
  exact le_trans (min_le_right _ _) (by omega)

/-- The `aspect_ratio` value under in-range inputs: a finite positive
representable rational with magnitude within `[2^-24, 2^24]`. -/
theorem aspect_eq {W H : ℕ} (hW0 : 0 < W) (hW : W ≤ 2 ^ 24) (hH0 : 0 < H)
    (hH : H ≤ 2 ^ 24) :
    aspect W H = F32.val (flqPos ((W : ℚ) / H)) ∧
      (2 : ℚ) ^ (-24 : ℤ) ≤ flqPos ((W : ℚ) / H) ∧
      flqPos ((W : ℚ) / H) ≤ (2 : ℚ) ^ (24 : ℤ) := by
  have hHq : (0 : ℚ) < H := by exact_mod_cast hH0
  have hWq : (1 : ℚ) ≤ W := by exact_mod_cast hW0
  have hHq1 : (1 : ℚ) ≤ H := by exact_mod_cast hH0
  have hWhi : (W : ℚ) ≤ 2 ^ (24 : ℤ) := by
    calc (W : ℚ) ≤ ((2 ^ 24 : ℕ) : ℚ) := by exact_mod_cast hW
      _ = 2 ^ (24 : ℤ) := by norm_num
  have hHhi : (H : ℚ) ≤ 2 ^ (24 : ℤ) := by
    calc (H : ℚ) ≤ ((2 ^ 24 : ℕ) : ℚ) := by exact_mod_cast hH
      _ = 2 ^ (24 : ℤ) := by norm_num
  have h24 : (2 : ℚ) ^ (-24 : ℤ) * 2 ^ (24 : ℤ) = 1 := by
    rw [← zpow_add₀ (by norm_num : (2 : ℚ) ≠ 0)]
    norm_num
  have hp24 : (0 : ℚ) < 2 ^ (-24 : ℤ) := zpow_pos two_pos _
  have hrlo : (2 : ℚ) ^ (-24 : ℤ) ≤ (W : ℚ) / H := by
    rw [le_div_iff₀ hHq]
    nlinarith
  have hrhi : (W : ℚ) / H ≤ (2 : ℚ) ^ (24 : ℤ) := by
    rw [div_le_iff₀ hHq]
    nlinarith [zpow_pos (two_pos (α := ℚ)) (24 : ℤ)]
  have hr0 : (0 : ℚ) < (W : ℚ) / H := div_pos (by linarith) hHq
  have hlo64 : (2 : ℚ) ^ (-64 : ℤ) ≤ (W : ℚ) / H :=
    le_trans (zpow_le_zpow_right₀ one_le_two (by norm_num)) hrlo
  have hhi64 : (W : ℚ) / H ≤ (2 : ℚ) ^ (64 : ℤ) :=
    le_trans hrhi (zpow_le_zpow_right₀ one_le_two (by norm_num))
  refine ⟨?_, ?_, ?_⟩
  · unfold aspect
    rw [u32toF32_natCast hW, u32toF32_natCast hH,
      F32val_div_pos hHq hr0 hlo64 hhi64]
  · have h1 := flqPos_mono hp24 (zpow_le_zpow_right₀ one_le_two (by norm_num))
      hhi64 hrlo
    rwa [flqPos_zpow (by norm_num) (by norm_num)] at h1
  · have h1 := flqPos_mono hr0 hlo64
      (zpow_le_zpow_right₀ one_le_two (by norm_num) :
        (2 : ℚ) ^ (24 : ℤ) ≤ 2 ^ (64 : ℤ)) hrhi
    rwa [flqPos_zpow (by norm_num) (by norm_num)] at h1

/-- Under in-range inputs, and provided the `Wh > Ww` disjunct never fires
without the floating-point aspect test also firing, the computed viewport
size fits inside the window on both axes. -/
theorem windowSize_le {W H Ww Wh : ℕ}
    (hW0 : 0 < W) (hW : W ≤ 2 ^ 24) (hH0 : 0 < H) (hH : H ≤ 2 ^ 24)
    (hWw0 : 0 < Ww) (hWw : Ww ≤ 2 ^ 24) (hWh0 : 0 < Wh) (hWh : Wh ≤ 2 ^ 24)
    (hflag : Ww < Wh → aspectGtTest W H Ww Wh = true) :
    (windowSizeCalc W H Ww Wh).1 ≤ Ww ∧ (windowSizeCalc W H Ww Wh).2 ≤ Wh := by
  obtain ⟨hasp, halo, hahi⟩ := aspect_eq hW0 hW hH0 hH
  set a := flqPos ((W : ℚ) / H) with ha
  have hp24 : (0 : ℚ) < 2 ^ (-24 : ℤ) := zpow_pos two_pos _
  have ha0 : 0 < a := lt_of_lt_of_le hp24 halo
  have hWhq : (1 : ℚ) ≤ Wh := by exact_mod_cast hWh0
  have hWwq : (1 : ℚ) ≤ Ww := by exact_mod_cast hWw0
  have hWhhi : (Wh : ℚ) ≤ 2 ^ (24 : ℤ) := by
    calc (Wh : ℚ) ≤ ((2 ^ 24 : ℕ) : ℚ) := by exact_mod_cast hWh
      _ = 2 ^ (24 : ℤ) := by norm_num
  have hWwhi : (Ww : ℚ) ≤ 2 ^ (24 : ℤ) := by
    calc (Ww : ℚ) ≤ ((2 ^ 24 : ℕ) : ℚ) := by exact_mod_cast hWw
      _ = 2 ^ (24 : ℤ) := by norm_num
  have h2448 : (2 : ℚ) ^ (24 : ℤ) * 2 ^ (24 : ℤ) = 2 ^ (48 : ℤ) := by
    rw [← zpow_add₀ (by norm_num : (2 : ℚ) ≠ 0)]
    norm_num
  have h24inv : (2 : ℚ) ^ (-24 : ℤ) * 2 ^ (24 : ℤ) = 1 := by
    rw [← zpow_add₀ (by norm_num : (2 : ℚ) ≠ 0)]
    norm_num
  have hm0 : 0 < (Wh : ℚ) * a := mul_pos (by linarith) ha0
  have hmlo : (2 : ℚ) ^ (-64 : ℤ) ≤ (Wh : ℚ) * a := by
    have h1 : (2 : ℚ) ^ (-24 : ℤ) ≤ (Wh : ℚ) * a := by
      calc (2 : ℚ) ^ (-24 : ℤ) ≤ a := halo
        _ = 1 * a := (one_mul a).symm
        _ ≤ (Wh : ℚ) * a := mul_le_mul_of_nonneg_right hWhq ha0.le
    exact le_trans (zpow_le_zpow_right₀ one_le_two (by norm_num)) h1
  have hmhi : (Wh : ℚ) * a ≤ (2 : ℚ) ^ (64 : ℤ) := by
    have h1 : (Wh : ℚ) * a ≤ 2 ^ (24 : ℤ) * 2 ^ (24 : ℤ) :=
      mul_le_mul hWhhi hahi ha0.le (zpow_pos two_pos _).le
    rw [h2448] at h1
    exact le_trans h1 (zpow_le_zpow_right₀ one_le_two (by norm_num))
  have hmulEq : F32.mul (u32toF32 Wh) (aspect W H) =
      .val (flqPos ((Wh : ℚ) * a)) := by
    rw [u32toF32_natCast hWh, hasp, F32val_mul_pos hm0 hmlo hmhi]
  have hgtEq : aspectGtTest W H Ww Wh =
      decide ((Ww : ℚ) < flqPos ((Wh : ℚ) * a)) := by
    unfold aspectGtTest
    rw [hmulEq, u32toF32_natCast hWw, F32val_gt]
  unfold windowSizeCalc
  by_cases ht : tallTest W H Ww Wh = true
  · rw [if_pos ht]
    refine ⟨le_rfl, ?_⟩
    have hgt : aspectGtTest W H Ww Wh = true := by
      unfold tallTest at ht
      rcases Bool.or_eq_true_iff.1 ht with h1 | h1
      · exact hflag (of_decide_eq_true h1)
      · exact h1
    rw [hgtEq] at hgt
    have hlt1 : (Ww : ℚ) < flqPos ((Wh : ℚ) * a) := of_decide_eq_true hgt
    have hlt2 : (Ww : ℚ) < (Wh : ℚ) * a := by
      by_contra hc
      push_neg at hc
      have hmono := flqPos_mono hm0 hmlo
        (le_trans hWwhi (zpow_le_zpow_right₀ one_le_two (by norm_num))) hc
      rw [flqPos_natCast hWw0 hWw] at hmono
      linarith
    have hq0 : (0 : ℚ) < (Ww : ℚ) / a := div_pos (by linarith) ha0
    have hqlo : (2 : ℚ) ^ (-64 : ℤ) ≤ (Ww : ℚ) / a := by
      have h1 : (2 : ℚ) ^ (-24 : ℤ) ≤ (Ww : ℚ) / a := by
        rw [le_div_iff₀ ha0]
        calc (2 : ℚ) ^ (-24 : ℤ) * a ≤ 2 ^ (-24 : ℤ) * 2 ^ (24 : ℤ) :=
              mul_le_mul_of_nonneg_left hahi hp24.le
          _ = 1 := h24inv
          _ ≤ (Ww : ℚ) := hWwq
      exact le_trans (zpow_le_zpow_right₀ one_le_two (by norm_num)) h1
    have hqhi : (Ww : ℚ) / a ≤ (2 : ℚ) ^ (64 : ℤ) := by
      rw [div_le_iff₀ ha0]
      have h1 : (2 : ℚ) ^ (64 : ℤ) * 2 ^ (-24 : ℤ) ≤ 2 ^ (64 : ℤ) * a :=
        mul_le_mul_of_nonneg_left halo (by positivity)
      have h2 : (2 : ℚ) ^ (64 : ℤ) * 2 ^ (-24 : ℤ) = 2 ^ (40 : ℤ) := by
        rw [← zpow_add₀ (by norm_num : (2 : ℚ) ≠ 0)]
        norm_num
      have h3 : (2 : ℚ) ^ (24 : ℤ) ≤ 2 ^ (40 : ℤ) :=
        zpow_le_zpow_right₀ one_le_two (by norm_num)
      linarith
    have hdivEq : F32.div (u32toF32 Ww) (aspect W H) =
        .val (flqPos ((Ww : ℚ) / a)) := by
      rw [u32toF32_natCast hWw, hasp, F32val_div_pos ha0 hq0 hqlo hqhi]
    rw [hdivEq, F32val_floor]
    have hqlt : (Ww : ℚ) / a < Wh := by
      rw [div_lt_iff₀ ha0]
      exact hlt2
    have hfle : flqPos ((Ww : ℚ) / a) ≤ (Wh : ℚ) := by
      have hmono := flqPos_mono hq0 hqlo
        (le_trans hWhhi (zpow_le_zpow_right₀ one_le_two (by norm_num)))
        hqlt.le
      rwa [flqPos_natCast hWh0 hWh] at hmono
    apply f32toU32_val_le
    · have h1 : (0 : ℤ) ≤ ⌊flqPos ((Ww : ℚ) / a)⌋ :=
        Int.floor_nonneg.2 (flqPos_nonneg hq0.le)
      exact_mod_cast h1
    · exact le_trans (Int.floor_le _) hfle
  · rw [if_neg ht]
    refine ⟨?_, le_rfl⟩
    have hnlt : ¬ ((Ww : ℚ) < flqPos ((Wh : ℚ) * a)) := by
      intro hc
      apply ht
      unfold tallTest
      rw [hgtEq, decide_eq_true hc, Bool.or_true]
    push_neg at hnlt
    rw [hmulEq, F32val_floor]
    apply f32toU32_val_le
    · have h1 : (0 : ℤ) ≤ ⌊flqPos ((Wh : ℚ) * a)⌋ :=
        Int.floor_nonneg.2 (flqPos_nonneg hm0.le)
      exact_mod_cast h1
    · exact le_trans (Int.floor_le _) hnlt

/-- Pure arithmetic on the centering offsets: whenever the viewport fits,
origin plus size stays inside the window on both axes. -/
theorem windowPos_add_le {Ww Wh : ℕ} {tall : Bool} {ws : ℕ × ℕ}
    (h1 : ws.1 ≤ Ww) (h2 : ws.2 ≤ Wh) :
    (windowPosCalc Ww Wh tall ws).1 + ws.1 ≤ Ww ∧
      (windowPosCalc Ww Wh tall ws).2 + ws.2 ≤ Wh := by
  unfold windowPosCalc
  cases tall
  · rw [if_neg Bool.false_ne_true]
    split_ifs with hx <;> refine ⟨?_, ?_⟩ <;> dsimp only <;> omega
  · rw [if_pos rfl]
    split_ifs with hx <;> refine ⟨?_, ?_⟩ <;> dsimp only <;> omega

/-- With a zero canvas height and positive width, the fit computation takes
the tall branch, produces a zero-height viewport, and the `y` transform
scale is `0/0 = NaN`. -/
theorem scaleFit_H0 {W Ww Wh : ℕ} (hW0 : 0 < W) (hW : W ≤ 2 ^ 24)
    (hWh0 : 0 < Wh) (hWh : Wh ≤ 2 ^ 24) :
    (scaleFit W 0 Ww Wh).scaleY = F32.nan ∧
      (scaleFit W 0 Ww Wh).windowSize.2 = 0 := by
  have hW0q : (0 : ℚ) < W := by exact_mod_cast hW0
  have hWh0q : (0 : ℚ) < Wh := by exact_mod_cast hWh0
  have hu0 : u32toF32 0 = .val 0 := by
    unfold u32toF32
    rw [show ((0 : ℕ) : ℚ) = 0 by norm_num,
      show flq 0 = 0 by unfold flq; rw [if_pos rfl]]
  have haspEq : aspect W 0 = .inf false := by
    unfold aspect
    rw [u32toF32_natCast hW, hu0]
    simp only [F32.div]
    rw [if_pos trivial, if_neg hW0q.ne', decide_eq_false (not_lt.2 hW0q.le)]
  have hmulEq : F32.mul (u32toF32 Wh) (aspect W 0) = .inf false := by
    rw [haspEq, u32toF32_natCast hWh]
    simp only [F32.mul]
    rw [if_neg hWh0q.ne', decide_eq_false (not_lt.2 hWh0q.le)]
    rfl
  have htall : tallTest W 0 Ww Wh = true := by
    unfold tallTest aspectGtTest
    rw [hmulEq, show F32.gt (.inf false) (u32toF32 Ww) = true from rfl,
      Bool.or_true]
  have hws : windowSizeCalc W 0 Ww Wh = (Ww, 0) := by
    unfold windowSizeCalc
    rw [if_pos htall]
    congr 1
    rw [haspEq, show F32.div (u32toF32 Ww) (.inf false) = .val 0 from rfl]
    simp [f32toU32, F32.floor]
  constructor
  · show F32.div (u32toF32 (windowSizeCalc W 0 Ww Wh).2) (u32toF32 0) =
      F32.nan
    rw [hws]
    dsimp only
    rw [hu0]
    simp only [F32.div]
    rfl
  · show (windowSizeCalc W 0 Ww Wh).2 = 0
    rw [hws]

/-! Part 7: setup and system lemmas. -/

theorem setupOne_of_init {c : CamEntity} (h : c.pixel.init = true)
    (r : SetupRes) : setupOne c r = (c, r) := by
  unfold setupOne
  rw [if_pos h]

theorem setupOne_init (c : CamEntity) (r : SetupRes) :
    ((setupOne c r).1).pixel.init = true := by
  unfold setupOne
  split_ifs with h
  · exact h
  · rfl

theorem setupLoop_init :
    ∀ (cs : List CamEntity) (r : SetupRes),
      ∀ c ∈ (setupLoop cs r).1, c.pixel.init = true := by
  intro cs
  induction cs with
  | nil =>
    intro r c hc
    simp [setupLoop] at hc
  | cons c0 cs ih =>
    intro r c hc
    have hc2 : c ∈ (setupOne c0 r).1 ::
        (setupLoop cs (setupOne c0 r).2).1 := hc
    rcases List.mem_cons.1 hc2 with h | h
    · rw [h]
      exact setupOne_init c0 r
    · exact ih (setupOne c0 r).2 c h

theorem setupLoop_of_init :
    ∀ (cs : List CamEntity) (r : SetupRes),
      (∀ c ∈ cs, c.pixel.init = true) → setupLoop cs r = (cs, r) := by
  intro cs
  induction cs with
  | nil =>
    intro r _
    rfl
  | cons c0 cs ih =>
    intro r h
    show ((setupOne c0 r).1 :: (setupLoop cs (setupOne c0 r).2).1,
      (setupLoop cs (setupOne c0 r).2).2) = (c0 :: cs, r)
    rw [setupOne_of_init (h c0 (List.mem_cons_self c0 cs)) r]
    dsimp only
    rw [ih r (fun c hc => h c (List.mem_cons_of_mem c0 hc))]

theorem getSingle_eq_none {α : Type} {l : List α} (h : l.length ≠ 1) :
    getSingle l = none := by
  cases l with
  | nil => rfl
  | cons a t =>
    cases t with
    | nil => exact absurd rfl h
    | cons b t2 => rfl

/-- Evaluation of `scale_render_image` when all four queried resources are
singletons: the transform scale and the final camera viewport are set
from the fit computation, everything else is carried over. -/
theorem scale_render_single (t : Transform) (cam : Camera)
    (p : TexturePixelCamera) (w : Window) :
    scale_render_image ⟨[t], [cam], [p], [w]⟩ =
      ⟨[{ t with scale := (Vec3.mk (fitOf p w).scaleX (fitOf p w).scaleY
            (fitOf p w).scaleZ) }],
        [{ cam with viewport := (some (Viewport.mk (fitOf p w).windowPos
            (fitOf p w).windowSize viewportDepthDefault)) }],
        [p], [w]⟩ := rfl

/-! Part 8: the claim theorems. -/

section ClaimTheorems

set_option maxRecDepth 200000

attribute [local semireducible] Rat.mul Rat.inv Rat.add Rat.sub

/-- Counterexample to claim C1 as stated: for canvas 1×4 in a 64×100
window (all dimensions positive) the tall branch fires via `Wh > Ww` alone
and the computed viewport height is 256, exceeding the window height 100. -/
theorem scaleFit_size_bound_counterexample :
    ¬ ((scaleFit 1 4 64 100).windowSize.2 ≤ 100) := by decide

/-- Claim C1 (amended): for canvas and window dimensions that are positive
and at most 2^24, and provided the `Wh > Ww` disjunct of the branch test never
fires without the floating-point test `Wh·aspect > Ww` also firing (the
counterexample shows the bound fails otherwise), the viewport size
computed by `scale_render_image` satisfies `viewport_size.x ≤ Ww` and
`viewport_size.y ≤ Wh`. -/
theorem scaleFit_size_within_window {W H Ww Wh : ℕ}
    (hW0 : 0 < W) (hW : W ≤ 2 ^ 24) (hH0 : 0 < H) (hH : H ≤ 2 ^ 24)
    (hWw0 : 0 < Ww) (hWw : Ww ≤ 2 ^ 24) (hWh0 : 0 < Wh) (hWh : Wh ≤ 2 ^ 24)
    (hflag : Ww < Wh → aspectGtTest W H Ww Wh = true) :
    (scaleFit W H Ww Wh).windowSize.1 ≤ Ww ∧
      (scaleFit W H Ww Wh).windowSize.2 ≤ Wh :=
  windowSize_le hW0 hW hH0 hH hWw0 hWw hWh0 hWh hflag

/-- Witness for claim C1 at canvas 256×224 in a 400×800 window (the tall
branch fires and the floating-point test holds). -/
theorem scaleFit_size_within_window_witness :
    ((0 < 256 ∧ 256 ≤ 2 ^ 24) ∧ (0 < 224 ∧ 224 ≤ 2 ^ 24) ∧
      (0 < 400 ∧ 400 ≤ 2 ^ 24) ∧ (0 < 800 ∧ 800 ≤ 2 ^ 24) ∧
      (400 < 800 → aspectGtTest 256 224 400 800 = true)) ∧
    (scaleFit 256 224 400 800).windowSize.1 ≤ 400 ∧
      (scaleFit 256 224 400 800).windowSize.2 ≤ 800 :=
  ⟨by decide,
    scaleFit_size_within_window (by decide) (by decide) (by decide)
      (by decide) (by decide) (by decide) (by decide) (by decide)
      (by decide)⟩

/-- Counterexample to claim C2 as stated: for canvas 1×4 in a 60×100
window the computed viewport extends to height 240, so origin plus size
exceeds the window height 100. -/
theorem scaleFit_extent_counterexample :
    ¬ ((scaleFit 1 4 60 100).windowPos.2 +
        (scaleFit 1 4 60 100).windowSize.2 ≤ 100) := by decide

/-- Claim C2 (amended): under the same side conditions as claim C1
(dimensions positive and at most 2^24, and the `Wh > Ww` disjunct never
fires without the floating-point aspect test), viewport origin plus
viewport size stays within the window on both axes. -/
theorem scaleFit_viewport_within_window {W H Ww Wh : ℕ}
    (hW0 : 0 < W) (hW : W ≤ 2 ^ 24) (hH0 : 0 < H) (hH : H ≤ 2 ^ 24)
    (hWw0 : 0 < Ww) (hWw : Ww ≤ 2 ^ 24) (hWh0 : 0 < Wh) (hWh : Wh ≤ 2 ^ 24)
    (hflag : Ww < Wh → aspectGtTest W H Ww Wh = true) :
    (scaleFit W H Ww Wh).windowPos.1 +
        (scaleFit W H Ww Wh).windowSize.1 ≤ Ww ∧
      (scaleFit W H Ww Wh).windowPos.2 +
        (scaleFit W H Ww Wh).windowSize.2 ≤ Wh := by
  obtain ⟨h1, h2⟩ := windowSize_le hW0 hW hH0 hH hWw0 hWw hWh0 hWh hflag
  exact windowPos_add_le h1 h2

/-- Witness for claim C2 at canvas 256×224 in a 512×448 window. -/
theorem scaleFit_viewport_within_window_witness :
    ((0 < 256 ∧ 256 ≤ 2 ^ 24) ∧ (0 < 224 ∧ 224 ≤ 2 ^ 24) ∧
      (0 < 512 ∧ 512 ≤ 2 ^ 24) ∧ (0 < 448 ∧ 448 ≤ 2 ^ 24) ∧
      (512 < 448 → aspectGtTest 256 224 512 448 = true)) ∧
    (scaleFit 256 224 512 448).windowPos.1 +
        (scaleFit 256 224 512 448).windowSize.1 ≤ 512 ∧
      (scaleFit 256 224 512 448).windowPos.2 +
        (scaleFit 256 224 512 448).windowSize.2 ≤ 448 :=
  ⟨by decide,
    scaleFit_viewport_within_window (by decide) (by decide) (by decide)
      (by decide) (by decide) (by decide) (by decide) (by decide)
      (by decide)⟩

/-- Counterexample to claim C3 as stated: with canvas height 0 (canvas
256×0, window 512×448) the computation does propagate NaN — the `y`
transform scale is `0/0 = NaN`; no degenerate-configuration sentinel is
produced. -/
theorem scaleFit_nan_counterexample :
    (scaleFit 256 0 512 448).scaleY = F32.nan := by decide

/-- Claim C3 (amended): when the canvas height is zero (width and window
height positive, in `f32`-exact range), `scale_render_image` performs no
degenerate-configuration detection: the aspect ratio is `+inf`, the tall
branch fires, the viewport height collapses to 0, and the `y` axis scale
becomes `0/0 = NaN`, which is written into the transform. -/
theorem scaleFit_degenerate_nan {W Ww Wh : ℕ} (hW0 : 0 < W)
    (hW : W ≤ 2 ^ 24) (hWh0 : 0 < Wh) (hWh : Wh ≤ 2 ^ 24) :
    (scaleFit W 0 Ww Wh).scaleY = F32.nan ∧
      (scaleFit W 0 Ww Wh).windowSize.2 = 0 :=
  scaleFit_H0 hW0 hW hWh0 hWh

/-- Witness for claim C3 at canvas 1×0, window 7×3. -/
theorem scaleFit_degenerate_nan_witness :
    ((0 < 1 ∧ 1 ≤ 2 ^ 24) ∧ (0 < 3 ∧ 3 ≤ 2 ^ 24)) ∧
      (scaleFit 1 0 7 3).scaleY = F32.nan ∧
        (scaleFit 1 0 7 3).windowSize.2 = 0 :=
  ⟨by decide,
    scaleFit_degenerate_nan (by decide) (by decide) (by decide) (by decide)⟩

/-- Counterexample to claim C4 as stated: for canvas 1×1 in a 9×16 window
the viewport is 9×9 and the offset computed by the code is `16/2 - 9/2 = 4`, not
`floor((16 - 9)/2) = 3`. -/
theorem scaleFit_centering_counterexample :
    ¬ ((scaleFit 1 1 9 16).windowPos.2 =
        (16 - (scaleFit 1 1 9 16).windowSize.2) / 2) := by decide

/-- Claim C4 (amended): the origin is `0` on the filled axis; on the
centering axis the code computes `window/2 - viewport/2` with each half
truncated separately, which equals `floor((window - viewport)/2)` plus one
exactly when the window dimension is even and the viewport dimension is
odd; when the halved viewport exceeds the halved window the `checked_sub`
guard clamps the offset to `0`. -/
theorem scaleFit_origin_centering (W H Ww Wh : ℕ) :
    (tallTest W H Ww Wh = true →
      (scaleFit W H Ww Wh).windowPos.1 = 0 ∧
      ((scaleFit W H Ww Wh).windowSize.2 ≤ Wh →
        (scaleFit W H Ww Wh).windowPos.2 =
          (Wh - (scaleFit W H Ww Wh).windowSize.2) / 2 +
            (if Wh % 2 = 0 ∧ (scaleFit W H Ww Wh).windowSize.2 % 2 = 1
              then 1 else 0)) ∧
      (Wh < (scaleFit W H Ww Wh).windowSize.2 →
        (scaleFit W H Ww Wh).windowPos.2 = 0)) ∧
    (tallTest W H Ww Wh = false →
      (scaleFit W H Ww Wh).windowPos.2 = 0 ∧
      ((scaleFit W H Ww Wh).windowSize.1 ≤ Ww →
        (scaleFit W H Ww Wh).windowPos.1 =
          (Ww - (scaleFit W H Ww Wh).windowSize.1) / 2 +
            (if Ww % 2 = 0 ∧ (scaleFit W H Ww Wh).windowSize.1 % 2 = 1
              then 1 else 0)) ∧
      (Ww < (scaleFit W H Ww Wh).windowSize.1 →
        (scaleFit W H Ww Wh).windowPos.1 = 0)) := by
  have hpos : (scaleFit W H Ww Wh).windowPos =
      windowPosCalc Ww Wh (tallTest W H Ww Wh) (windowSizeCalc W H Ww Wh) :=
    rfl
  have hsz : (scaleFit W H Ww Wh).windowSize = windowSizeCalc W H Ww Wh :=
    rfl
  rw [hpos, hsz]
  constructor
  · intro htall
    rw [htall]
    unfold windowPosCalc
    rw [if_pos rfl]
    refine ⟨?_, fun hle => ?_, fun hgt => ?_⟩
    · split_ifs <;> rfl
    · split_ifs <;> (try dsimp only) <;> omega
    · split_ifs <;> (try dsimp only) <;> omega
  · intro hwide
    rw [hwide]
    unfold windowPosCalc
    rw [if_neg Bool.false_ne_true]
    refine ⟨?_, fun hle => ?_, fun hgt => ?_⟩
    · split_ifs <;> rfl
    · split_ifs <;> (try dsimp only) <;> omega
    · split_ifs <;> (try dsimp only) <;> omega

/-- Witness for claim C4 at canvas 1×1 in a 9×16 window: the tall branch
fires, the viewport height 9 fits, and the offset is
`floor((16 - 9)/2) + 1 = 4` because 16 is even and 9 is odd. -/
theorem scaleFit_origin_centering_witness :
    tallTest 1 1 9 16 = true ∧ (scaleFit 1 1 9 16).windowSize.2 ≤ 16 ∧
      (scaleFit 1 1 9 16).windowPos.1 = 0 ∧
      (scaleFit 1 1 9 16).windowPos.2 =
        (16 - (scaleFit 1 1 9 16).windowSize.2) / 2 +
          (if 16 % 2 = 0 ∧ (scaleFit 1 1 9 16).windowSize.2 % 2 = 1
            then 1 else 0) :=
  ⟨by decide, by decide,
    ((scaleFit_origin_centering 1 1 9 16).1 (by decide)).1,
    ((scaleFit_origin_centering 1 1 9 16).1 (by decide)).2.1 (by decide)⟩

/-- Claim C5: the fit outputs are independent of `fixed_axis` (and of
every other field except `size`): two pixel cameras agreeing on `size`
and `clear_color` produce the same transform and the same final-camera
viewport under `scale_render_image`, for the same window. -/
theorem scale_render_fixed_axis_independent (t : Transform) (cam : Camera)
    (w : Window) (p p' : TexturePixelCamera) (hs : p.size = p'.size)
    (hc : p.clear_color = p'.clear_color) :
    (scale_render_image ⟨[t], [cam], [p], [w]⟩).renderTransforms =
        (scale_render_image ⟨[t], [cam], [p'], [w]⟩).renderTransforms ∧
      (scale_render_image ⟨[t], [cam], [p], [w]⟩).finalCameras =
        (scale_render_image ⟨[t], [cam], [p'], [w]⟩).finalCameras := by
  rw [scale_render_single, scale_render_single]
  unfold fitOf
  rw [hs]
  exact ⟨rfl, rfl⟩

/-- Witness for claim C5: cameras 256×224 with `fixed_axis = none` versus
`fixed_axis = some true`, same white clear color, in a 512×448 window. -/
theorem scale_render_fixed_axis_independent_witness :
    ((⟨(256, 224), none, whiteColor, false⟩ : TexturePixelCamera).size =
        (⟨(256, 224), some true, whiteColor, false⟩ :
          TexturePixelCamera).size) ∧
    ((⟨(256, 224), none, whiteColor, false⟩ :
        TexturePixelCamera).clear_color =
      (⟨(256, 224), some true, whiteColor, false⟩ :
        TexturePixelCamera).clear_color) ∧
    ((scale_render_image ⟨[Transform.identityT],
        [⟨none, 1, .window, true⟩],
        [⟨(256, 224), none, whiteColor, false⟩],
        [⟨512, 448⟩]⟩).renderTransforms =
      (scale_render_image ⟨[Transform.identityT],
        [⟨none, 1, .window, true⟩],
        [⟨(256, 224), some true, whiteColor, false⟩],
        [⟨512, 448⟩]⟩).renderTransforms ∧
    (scale_render_image ⟨[Transform.identityT],
        [⟨none, 1, .window, true⟩],
        [⟨(256, 224), none, whiteColor, false⟩],
        [⟨512, 448⟩]⟩).finalCameras =
      (scale_render_image ⟨[Transform.identityT],
        [⟨none, 1, .window, true⟩],
        [⟨(256, 224), some true, whiteColor, false⟩],
        [⟨512, 448⟩]⟩).finalCameras) :=
  ⟨rfl, rfl,
    scale_render_fixed_axis_independent Transform.identityT
      ⟨none, 1, .window, true⟩ ⟨512, 448⟩
      ⟨(256, 224), none, whiteColor, false⟩
      ⟨(256, 224), some true, whiteColor, false⟩ rfl rfl⟩

/-- Claim C6: `setup_camera` is idempotent — after one run every queried
camera has `init = true`, and a second run allocates nothing and changes
no state: running setup twice equals running it once. -/
theorem setup_camera_idem (w : SetupWorld) :
    setup_camera (setup_camera w) = setup_camera w := by
  have h := setupLoop_of_init (setupLoop w.cams w.res).1
    (setupLoop w.cams w.res).2 (setupLoop_init w.cams w.res)
  show SetupWorld.mk
    (setupLoop (setupLoop w.cams w.res).1 (setupLoop w.cams w.res).2).1
    (setupLoop (setupLoop w.cams w.res).1 (setupLoop w.cams w.res).2).2 =
    SetupWorld.mk (setupLoop w.cams w.res).1 (setupLoop w.cams w.res).2
  rw [h]

/-- Claim C7: `scale_render_image` is a no-op on its entire state whenever
any of its four `get_single` queries does not find exactly one match. -/
theorem scale_render_skip_on_missing {s : ScaleState}
    (h : s.renderTransforms.length ≠ 1 ∨ s.finalCameras.length ≠ 1 ∨
      s.pixelCams.length ≠ 1 ∨ s.windows.length ≠ 1) :
    scale_render_image s = s := by
  unfold scale_render_image
  rcases h with h | h | h | h
  · rw [getSingle_eq_none h]
  · cases h1 : getSingle s.renderTransforms with
    | none => rfl
    | some t =>
      cases h2 : getSingle s.windows with
      | none => rfl
      | some w => rw [getSingle_eq_none h]
  · cases h1 : getSingle s.renderTransforms with
    | none => rfl
    | some t =>
      cases h2 : getSingle s.windows with
      | none => rfl
      | some w =>
        cases h3 : getSingle s.finalCameras with
        | none => rfl
        | some cam => rw [getSingle_eq_none h]
  · cases h1 : getSingle s.renderTransforms with
    | none => rfl
    | some t => rw [getSingle_eq_none h]

/-- Witness for claim C7: the empty state (no transform, camera, pixel
camera or window present) is left unchanged. -/
theorem scale_render_skip_on_missing_witness :
    (([] : List Transform).length ≠ 1 ∨ ([] : List Camera).length ≠ 1 ∨
      ([] : List TexturePixelCamera).length ≠ 1 ∨
      ([] : List Window).length ≠ 1) ∧
    scale_render_image ⟨[], [], [], []⟩ = (⟨[], [], [], []⟩ : ScaleState) :=
  ⟨Or.inl (by decide), scale_render_skip_on_missing (Or.inl (by decide))⟩

/-- Claim C8: for canvas 256×224 in a 512×448 window the fit is exact:
both axis scales are exactly 2.0 and the viewport origin is (0, 0). -/
theorem scaleFit_exact_fit_double :
    (scaleFit 256 224 512 448).scaleX = F32.val 2 ∧
      (scaleFit 256 224 512 448).scaleY = F32.val 2 ∧
      (scaleFit 256 224 512 448).windowPos = (0, 0) := by decide

/-- Counterexample to claim C9 as stated: for canvas 256×224 in an
800×800 window the viewport size is (800, 699) but the origin is not
(0, 50). -/
theorem scaleFit_letterbox_counterexample :
    ¬ ((scaleFit 256 224 800 800).windowSize = (800, 699) ∧
        (scaleFit 256 224 800 800).windowPos = (0, 50)) := by decide

/-- Claim C9 (amended): for canvas 256×224 in an 800×800 window the tall
branch fires and the viewport size is (800, 699); the origin however is
(0, 51), because the code computes `800/2 - 699/2 = 400 - 349 = 51`
rather than `floor((800 - 699)/2) = 50`. -/
theorem scaleFit_letterbox_values :
    tallTest 256 224 800 800 = true ∧
      (scaleFit 256 224 800 800).windowSize = (800, 699) ∧
      (scaleFit 256 224 800 800).windowPos = (0, 51) := by decide

/-- Claim C10: when all four single-instance resources are present,
`scale_render_image` only rewrites the scale of the render-image transform
and the viewport of the final camera: translation and rotation of the
transform are unchanged, the `z` component of the scale is exactly 1.0,
the other camera fields are unchanged, and the pixel camera and window
are untouched. -/
theorem scale_render_frame_effect (t : Transform) (cam : Camera)
    (p : TexturePixelCamera) (w : Window) :
    ∃ t2 cam2,
      scale_render_image ⟨[t], [cam], [p], [w]⟩ = ⟨[t2], [cam2], [p], [w]⟩ ∧
        t2.translation = t.translation ∧ t2.rotation = t.rotation ∧
        t2.scale.z = F32.val 1 ∧ cam2.order = cam.order ∧
        cam2.target = cam.target ∧ cam2.is_active = cam.is_active :=
  ⟨_, _, scale_render_single t cam p w, rfl, rfl, rfl, rfl, rfl, rfl⟩

end ClaimTheorems

end BevyPixel
